import Mathlib

/-!
Verification of the snapshot-field-restore service (src/main.py).

The development shallowly embeds the program:

* `JVal`, `loads`, `dumps` model the JSON values the service manipulates and
  the Python `json.loads` / `json.dumps` library functions at the interface
  the program uses them (documents made of null, booleans, integers,
  strings, arrays and objects; whitespace-tolerant parsing; string escapes
  including \uXXXX; leading-zero numbers rejected).  Floating point numbers,
  NaN/Infinity literals and lone-surrogate escapes are outside the model:
  the parser rejects them and the encoder never produces them.
* `unescapeCore` / `unescape_json_string` embed the decode loop of
  `unescape_json_string` (main.py lines 11-25).
* `run` embeds the retry loop of `update_custom_field` (lines 47-90) as a
  function of the sequence of outcomes of the successive `requests.put`
  calls, recording the performed HTTP attempts and sleeps as a trace.
* `processFields` embeds the per-field loop of `filter_custom_fields`
  (lines 139-163), and `requestObjectOf` its array-unwrapping of the
  request body (lines 103-106).
-/

set_option maxHeartbeats 1000000

/-- JSON values, the universe of results of Python `json.loads` as used by
the program (integers in place of general numbers). -/
inductive JVal where
  | null : JVal
  | bool (b : Bool) : JVal
  | num (i : Int) : JVal
  | str (s : List Char) : JVal
  | arr (elems : List JVal) : JVal
  | obj (membs : List (List Char × JVal)) : JVal

/-- JSON whitespace (space, tab, newline, carriage return). -/
def isWs (c : Char) : Bool :=
  c.toNat = 32 || c.toNat = 9 || c.toNat = 10 || c.toNat = 13

/-- Drop leading JSON whitespace. -/
def skipWs : List Char → List Char
  | [] => []
  | c :: l => if isWs c then skipWs l else c :: l

/-- Decimal digit character test. -/
def isDigitCh (c : Char) : Bool :=
  decide (48 ≤ c.toNat) && decide (c.toNat ≤ 57)

/-- Match a literal character sequence, returning the remaining input. -/
def litPref : List Char → List Char → Option (List Char)
  | [], l => some l
  | _ :: _, [] => none
  | p :: ps, c :: l => if c = p then litPref ps l else none

/-- Parse the tail of a keyword literal (`null`, `true`, `false`). -/
def expectLit (pre : List Char) (l : List Char) (v : JVal) : Option (JVal × List Char) :=
  match litPref pre l with
  | some r => some (v, r)
  | none => none

/-- Split off the longest leading run of decimal digits. -/
def leadDigits : List Char → List Char × List Char
  | [] => ([], [])
  | c :: l =>
    if isDigitCh c then
      let p := leadDigits l
      (c :: p.1, p.2)
    else ([], c :: l)

/-- Numeric value of a big-endian list of digit characters. -/
def digitsVal (l : List Char) : Nat :=
  l.foldl (fun a c => a * 10 + (c.toNat - 48)) 0

/-- Parse a natural number literal (JSON grammar: no leading zeros). -/
def parseNatNum (l : List Char) : Option (Nat × List Char) :=
  match leadDigits l with
  | ([], _) => none
  | (d :: ds, r) => if d = '0' ∧ ds ≠ [] then none else some (digitsVal (d :: ds), r)

/-- A following `.`/`e`/`E` would make the literal a float, which the
integer model rejects. -/
def floatFollows : List Char → Bool
  | [] => false
  | c :: _ => c = '.' || c = 'e' || c = 'E'

/-- Parse an integer literal with optional leading minus sign. -/
def parseNumber : List Char → Option (Int × List Char)
  | [] => none
  | c :: r =>
    if c = '-' then
      match parseNatNum r with
      | some (n, r1) => if floatFollows r1 then none else some (-(n : Int), r1)
      | none => none
    else
      match parseNatNum (c :: r) with
      | some (n, r1) => if floatFollows r1 then none else some ((n : Int), r1)
      | none => none

/-- Hexadecimal digit character test. -/
def isHexCh (c : Char) : Bool :=
  (decide (48 ≤ c.toNat) && decide (c.toNat ≤ 57)) ||
  (decide (97 ≤ c.toNat) && decide (c.toNat ≤ 102)) ||
  (decide (65 ≤ c.toNat) && decide (c.toNat ≤ 70))

/-- Value of a hexadecimal digit character. -/
def hexVal (c : Char) : Nat :=
  if decide (48 ≤ c.toNat) && decide (c.toNat ≤ 57) then c.toNat - 48
  else if decide (97 ≤ c.toNat) && decide (c.toNat ≤ 102) then c.toNat - 87
  else c.toNat - 55

/-- Named JSON string escapes. -/
def escMap (e : Char) : Option Char :=
  if e = '"' then some '"'
  else if e = '\\' then some '\\'
  else if e = '/' then some '/'
  else if e = 'b' then some (Char.ofNat 8)
  else if e = 'f' then some (Char.ofNat 12)
  else if e = 'n' then some '\n'
  else if e = 'r' then some '\r'
  else if e = 't' then some '\t'
  else none

/-- Parse the body of a JSON string literal after the opening quote, up to
and including the closing quote.  Strict mode: raw control characters are
rejected, as are `\u` escapes in the surrogate range. -/
def parseStrBody : List Char → Option (List Char × List Char)
  | [] => none
  | c :: r =>
    if c = '"' then some ([], r)
    else if c = '\\' then
      match r with
      | [] => none
      | e :: r1 =>
        if e = 'u' then
          match r1 with
          | h1 :: h2 :: h3 :: h4 :: r2 =>
            if isHexCh h1 && isHexCh h2 && isHexCh h3 && isHexCh h4 then
              let nv := hexVal h1 * 4096 + hexVal h2 * 256 + hexVal h3 * 16 + hexVal h4
              if decide (nv < 55296) then
                (parseStrBody r2).map (fun p => (Char.ofNat nv :: p.1, p.2))
              else none
            else none
          | _ => none
        else
          match escMap e with
          | some ec => (parseStrBody r1).map (fun p => (ec :: p.1, p.2))
          | none => none
    else if decide (c.toNat < 32) then none
    else (parseStrBody r).map (fun p => (c :: p.1, p.2))

mutual

/-- Parse one JSON value.  The fuel argument bounds the nesting depth; the
wrapper `loads` supplies fuel exceeding the document length, which always
suffices (every nesting level consumes input characters). -/
def parseVal : Nat → List Char → Option (JVal × List Char)
  | 0, _ => none
  | _ + 1, [] => none
  | n + 1, c :: r =>
    if c = 'n' then expectLit ['u', 'l', 'l'] r JVal.null
    else if c = 't' then expectLit ['r', 'u', 'e'] r (JVal.bool true)
    else if c = 'f' then expectLit ['a', 'l', 's', 'e'] r (JVal.bool false)
    else if c = '"' then (parseStrBody r).map (fun p => (JVal.str p.1, p.2))
    else if c = '[' then
      match skipWs r with
      | ']' :: r2 => some (JVal.arr [], r2)
      | r1 => (parseElems n r1).map (fun p => (JVal.arr p.1, p.2))
    else if c = '{' then
      match skipWs r with
      | '}' :: r2 => some (JVal.obj [], r2)
      | r1 => (parseMembs n r1).map (fun p => (JVal.obj p.1, p.2))
    else (parseNumber (c :: r)).map (fun p => (JVal.num p.1, p.2))

/-- Parse the non-empty element list of a JSON array, consuming the
closing bracket. -/
def parseElems : Nat → List Char → Option (List JVal × List Char)
  | 0, _ => none
  | n + 1, l =>
    match parseVal n l with
    | none => none
    | some (v, r) =>
      match skipWs r with
      | ',' :: r2 => (parseElems n (skipWs r2)).map (fun p => (v :: p.1, p.2))
      | ']' :: r2 => some ([v], r2)
      | _ => none

/-- Parse the non-empty member list of a JSON object, consuming the
closing brace. -/
def parseMembs : Nat → List Char → Option (List (List Char × JVal) × List Char)
  | 0, _ => none
  | n + 1, l =>
    match l with
    | '"' :: r =>
      match parseStrBody r with
      | none => none
      | some (k, r1) =>
        match skipWs r1 with
        | ':' :: r2 =>
          match parseVal n (skipWs r2) with
          | none => none
          | some (v, r3) =>
            match skipWs r3 with
            | ',' :: r4 => (parseMembs n (skipWs r4)).map (fun p => ((k, v) :: p.1, p.2))
            | '}' :: r4 => some ([(k, v)], r4)
            | _ => none
        | _ => none
    | _ => none

end

/-- Model of Python `json.loads`: parse a complete document, tolerating
surrounding whitespace, rejecting trailing data.  `none` models a raised
`json.JSONDecodeError`. -/
def loads (s : List Char) : Option JVal :=
  match parseVal (s.length + 1) (skipWs s) with
  | some (v, r) => if skipWs r = [] then some v else none
  | none => none

/-- Decimal digit character for a value below ten. -/
def digitChar (d : Nat) : Char :=
  match d with
  | 0 => '0' | 1 => '1' | 2 => '2' | 3 => '3' | 4 => '4'
  | 5 => '5' | 6 => '6' | 7 => '7' | 8 => '8' | _ => '9'

/-- Big-endian decimal digits of a natural number. -/
def encNat (m : Nat) : List Char :=
  if _h : m < 10 then [digitChar m]
  else encNat (m / 10) ++ [digitChar (m % 10)]
  decreasing_by exact Nat.div_lt_self (by omega) (by omega)

/-- Decimal rendering of an integer. -/
def encInt (i : Int) : List Char :=
  if i < 0 then '-' :: encNat i.natAbs else encNat i.natAbs

/-- Lowercase hexadecimal digit character for a value below sixteen. -/
def hexDigit (d : Nat) : Char :=
  match d with
  | 0 => '0' | 1 => '1' | 2 => '2' | 3 => '3' | 4 => '4'
  | 5 => '5' | 6 => '6' | 7 => '7' | 8 => '8' | 9 => '9'
  | 10 => 'a' | 11 => 'b' | 12 => 'c' | 13 => 'd' | 14 => 'e' | _ => 'f'

/-- JSON encoding of one string character: quote, backslash and control
characters are escaped as Python `json.dumps` escapes them. -/
def escChar (c : Char) : List Char :=
  if c = '"' then ['\\', '"']
  else if c = '\\' then ['\\', '\\']
  else if c = '\n' then ['\\', 'n']
  else if c = '\r' then ['\\', 'r']
  else if c = '\t' then ['\\', 't']
  else if c.toNat = 8 then ['\\', 'b']
  else if c.toNat = 12 then ['\\', 'f']
  else if c.toNat < 32 then ['\\', 'u', '0', '0', hexDigit (c.toNat / 16), hexDigit (c.toNat % 16)]
  else [c]

/-- JSON encoding of a string body. -/
def encStrBody : List Char → List Char
  | [] => []
  | c :: l => escChar c ++ encStrBody l

/-- JSON encoding of a string literal. -/
def encStr (s : List Char) : List Char :=
  '"' :: encStrBody s ++ ['"']

mutual

/-- Model of Python `json.dumps` with its default separators
(`", "` between items, `": "` after keys). -/
def dumps : JVal → List Char
  | JVal.null => ['n', 'u', 'l', 'l']
  | JVal.bool true => ['t', 'r', 'u', 'e']
  | JVal.bool false => ['f', 'a', 'l', 's', 'e']
  | JVal.num i => encInt i
  | JVal.str s => encStr s
  | JVal.arr [] => ['[', ']']
  | JVal.arr (v :: vs) => '[' :: dumpsElems v vs ++ [']']
  | JVal.obj [] => ['{', '}']
  | JVal.obj (m :: ms) => '{' :: dumpsMembs m ms ++ ['}']
  termination_by v => sizeOf v
  decreasing_by all_goals (simp; try omega)

/-- Encoding of a non-empty array element list. -/
def dumpsElems : JVal → List JVal → List Char
  | v, [] => dumps v
  | v, w :: ws => dumps v ++ ',' :: ' ' :: dumpsElems w ws
  termination_by v vs => sizeOf v + sizeOf vs
  decreasing_by all_goals (simp; try omega)

/-- Encoding of a non-empty object member list. -/
def dumpsMembs : (List Char × JVal) → List (List Char × JVal) → List Char
  | (k, v), [] => encStr k ++ ':' :: ' ' :: dumps v
  | (k, v), m :: ms => (encStr k ++ ':' :: ' ' :: dumps v) ++ ',' :: ' ' :: dumpsMembs m ms
  termination_by m ms => sizeOf m + sizeOf ms
  decreasing_by all_goals (simp; try omega)

end

/-! Character-level facts. -/

theorem isDigitCh_iff {c : Char} : isDigitCh c = true ↔ 48 ≤ c.toNat ∧ c.toNat ≤ 57 := by
  simp [isDigitCh]

theorem digit_ne_of {c x : Char} (h : isDigitCh c = true) (hx : isDigitCh x = false) : c ≠ x := by
  intro he
  subst he
  rw [h] at hx
  cases hx

theorem isWs_eq_false_of_digit {c : Char} (h : isDigitCh c = true) : isWs c = false := by
  rw [isDigitCh_iff] at h
  simp [isWs]
  omega

theorem digitChar_lt_ten : ∀ d : Nat, d < 10 →
    isDigitCh (digitChar d) = true ∧ (digitChar d).toNat = 48 + d ∧
    (d ≠ 0 → digitChar d ≠ '0') := by decide

theorem hexDigit_lt_sixteen : ∀ d : Nat, d < 16 →
    isHexCh (hexDigit d) = true ∧ hexVal (hexDigit d) = d := by decide

/-! Whitespace-skipping facts. -/

theorem skipWs_cons_false {c : Char} {l : List Char} (h : isWs c = false) :
    skipWs (c :: l) = c :: l := by
  simp [skipWs, h]

theorem skipWs_cons_true {c : Char} {l : List Char} (h : isWs c = true) :
    skipWs (c :: l) = skipWs l := by
  simp [skipWs, h]

theorem skipWs_length : ∀ l : List Char, (skipWs l).length ≤ l.length := by
  intro l
  induction l with
  | nil => simp [skipWs]
  | cons c l ih =>
    by_cases h : isWs c = true
    · rw [skipWs_cons_true h]
      simp
      omega
    · rw [skipWs_cons_false (by simp at h; simp [h])]

/-! Facts about the decimal rendering of numbers. -/

theorem encNat_all_digits : ∀ m : Nat, ∀ x ∈ encNat m, isDigitCh x = true := by
  intro m
  induction m using Nat.strong_induction_on with
  | _ m ih =>
    intro x hx
    rw [encNat] at hx
    by_cases h : m < 10
    · simp [h] at hx
      subst hx
      exact (digitChar_lt_ten m h).1
    · simp only [h, dite_false, List.mem_append, List.mem_singleton] at hx
      rcases hx with hx | hx
      · exact ih (m / 10) (Nat.div_lt_self (by omega) (by omega)) x hx
      · subst hx
        exact (digitChar_lt_ten (m % 10) (by omega)).1

theorem encNat_shape : ∀ m : Nat, ∃ c cs, encNat m = c :: cs ∧ isDigitCh c = true ∧
    (m ≠ 0 → c ≠ '0') := by
  intro m
  induction m using Nat.strong_induction_on with
  | _ m ih =>
    by_cases h : m < 10
    · refine ⟨digitChar m, [], by rw [encNat]; simp [h], (digitChar_lt_ten m h).1, ?_⟩
      exact fun hm => (digitChar_lt_ten m h).2.2 hm
    · obtain ⟨c, cs, hc, hdig, hz⟩ := ih (m / 10) (Nat.div_lt_self (by omega) (by omega))
      refine ⟨c, cs ++ [digitChar (m % 10)], ?_, hdig, ?_⟩
      · rw [encNat]
        simp [h, hc]
      · intro _
        exact hz (by omega)

theorem encNat_ne_nil (m : Nat) : encNat m ≠ [] := by
  obtain ⟨c, cs, hc, -⟩ := encNat_shape m
  simp [hc]

/-- Absence of a digit at the head of a list. -/
def digitHead : List Char → Bool
  | [] => false
  | c :: _ => isDigitCh c

theorem leadDigits_append (ds rest : List Char) (hd : ∀ c ∈ ds, isDigitCh c = true)
    (hr : digitHead rest = false) : leadDigits (ds ++ rest) = (ds, rest) := by
  induction ds with
  | nil =>
    cases rest with
    | nil => rfl
    | cons c cs =>
      simp [digitHead] at hr
      simp [leadDigits, hr]
  | cons d ds ih =>
    have hdd : isDigitCh d = true := hd d (by simp)
    have ih2 := ih (fun c hc => hd c (by simp [hc]))
    simp [leadDigits, hdd, ih2]

theorem foldl_encNat (m : Nat) : ∀ a : Nat,
    List.foldl (fun a c => a * 10 + (c.toNat - 48)) a (encNat m) =
      a * 10 ^ (encNat m).length + m := by
  induction m using Nat.strong_induction_on with
  | _ m ih =>
    intro a
    rw [encNat]
    by_cases h : m < 10
    · simp [h, List.foldl, (digitChar_lt_ten m h).2.1]
    · have hlt := Nat.div_lt_self (show 0 < m by omega) (show 1 < 10 by omega)
      simp only [h, dite_false, List.foldl_append, List.length_append, List.length_cons,
        List.length_nil, List.foldl_cons, List.foldl_nil]
      rw [ih (m / 10) hlt a]
      have hmod := (digitChar_lt_ten (m % 10) (by omega)).2.1
      rw [hmod]
      have : a * 10 ^ ((encNat (m / 10)).length + (0 + 1)) =
          (a * 10 ^ (encNat (m / 10)).length) * 10 := by ring
      rw [this]
      have hdm := Nat.div_add_mod m 10
      omega

theorem digitsVal_encNat (m : Nat) : digitsVal (encNat m) = m := by
  have := foldl_encNat m 0
  simpa [digitsVal] using this

theorem parseNatNum_encNat (m : Nat) (rest : List Char) (hr : digitHead rest = false) :
    parseNatNum (encNat m ++ rest) = some (m, rest) := by
  obtain ⟨c, cs, hc, hdig, hz⟩ := encNat_shape m
  rw [parseNatNum, leadDigits_append (encNat m) rest (encNat_all_digits m) hr, hc]
  show (if c = '0' ∧ cs ≠ [] then none else some (digitsVal (c :: cs), rest)) = some (m, rest)
  by_cases hm : m = 0
  · subst hm
    have h0 : encNat 0 = ['0'] := by rw [encNat]; rfl
    rw [h0] at hc
    injection hc with h1 h2
    subst h1
    subst h2
    simp only [ne_eq, not_true_eq_false, and_false, if_false]
    rw [← h0, digitsVal_encNat]
  · have hng : ¬(c = '0' ∧ cs ≠ []) := fun hcon => hz hm hcon.1
    rw [if_neg hng, ← hc, digitsVal_encNat]

theorem parseNumber_encInt (i : Int) (rest : List Char) (hd : digitHead rest = false)
    (hf : floatFollows rest = false) : parseNumber (encInt i ++ rest) = some (i, rest) := by
  by_cases hneg : i < 0
  · rw [encInt, if_pos hneg]
    show parseNumber ('-' :: (encNat i.natAbs ++ rest)) = some (i, rest)
    simp only [parseNumber, if_pos]
    rw [parseNatNum_encNat i.natAbs rest hd]
    show (if floatFollows rest then none else some (-(i.natAbs : Int), rest)) = some (i, rest)
    rw [hf]
    have hi : -((i.natAbs : Int)) = i := by omega
    rw [hi]
    rfl
  · rw [encInt, if_neg hneg]
    obtain ⟨c, cs, hc, hdig, -⟩ := encNat_shape i.natAbs
    rw [hc]
    show parseNumber (c :: (cs ++ rest)) = some (i, rest)
    have hcd : c ≠ '-' := digit_ne_of hdig (by decide)
    simp only [parseNumber, if_neg hcd]
    rw [show c :: (cs ++ rest) = (c :: cs) ++ rest from rfl, ← hc,
      parseNatNum_encNat i.natAbs rest hd]
    show (if floatFollows rest then none else some ((i.natAbs : Int), rest)) = some (i, rest)
    rw [hf]
    have hi : ((i.natAbs : Int)) = i := by omega
    rw [hi]
    rfl

theorem char_eq_of_toNat {c : Char} {m : Nat} (h : c.toNat = m) : Char.ofNat m = c := by
  rw [← h, Char.ofNat_toNat]

theorem parseStrBody_enc : ∀ s rest : List Char,
    parseStrBody (encStrBody s ++ '"' :: rest) = some (s, rest) := by
  intro s
  induction s with
  | nil =>
    intro rest
    show parseStrBody ('"' :: rest) = some ([], rest)
    conv_lhs => rw [parseStrBody.eq_def]
    simp
  | cons c s ih =>
    intro rest
    show parseStrBody ((escChar c ++ encStrBody s) ++ '"' :: rest) = some (c :: s, rest)
    rw [List.append_assoc]
    by_cases h1 : c = '"'
    · subst h1
      rw [show escChar '"' = ['\\', '"'] from rfl]
      show parseStrBody ('\\' :: '"' :: (encStrBody s ++ '"' :: rest)) = some ('"' :: s, rest)
      conv_lhs => rw [parseStrBody.eq_def]
      simp [escMap, ih rest]
    · by_cases h2 : c = '\\'
      · subst h2
        rw [show escChar '\\' = ['\\', '\\'] from rfl]
        show parseStrBody ('\\' :: '\\' :: (encStrBody s ++ '"' :: rest)) =
          some ('\\' :: s, rest)
        conv_lhs => rw [parseStrBody.eq_def]
        simp [escMap, ih rest]
      · by_cases h3 : c = '\n'
        · subst h3
          rw [show escChar '\n' = ['\\', 'n'] from rfl]
          show parseStrBody ('\\' :: 'n' :: (encStrBody s ++ '"' :: rest)) =
            some ('\n' :: s, rest)
          conv_lhs => rw [parseStrBody.eq_def]
          simp [escMap, ih rest]
        · by_cases h4 : c = '\r'
          · subst h4
            rw [show escChar '\r' = ['\\', 'r'] from rfl]
            show parseStrBody ('\\' :: 'r' :: (encStrBody s ++ '"' :: rest)) =
              some ('\r' :: s, rest)
            conv_lhs => rw [parseStrBody.eq_def]
            simp [escMap, ih rest]
          · by_cases h5 : c = '\t'
            · subst h5
              rw [show escChar '\t' = ['\\', 't'] from rfl]
              show parseStrBody ('\\' :: 't' :: (encStrBody s ++ '"' :: rest)) =
                some ('\t' :: s, rest)
              conv_lhs => rw [parseStrBody.eq_def]
              simp [escMap, ih rest]
            · by_cases h6 : c.toNat = 8
              · have hc8 : Char.ofNat 8 = c := char_eq_of_toNat h6
                rw [escChar, if_neg h1, if_neg h2, if_neg h3, if_neg h4, if_neg h5, if_pos h6]
                show parseStrBody ('\\' :: 'b' :: (encStrBody s ++ '"' :: rest)) =
                  some (c :: s, rest)
                conv_lhs => rw [parseStrBody.eq_def]
                simp [escMap, ih rest, hc8]
                exact hc8
              · by_cases h7 : c.toNat = 12
                · have hc12 : Char.ofNat 12 = c := char_eq_of_toNat h7
                  rw [escChar, if_neg h1, if_neg h2, if_neg h3, if_neg h4, if_neg h5,
                    if_neg h6, if_pos h7]
                  show parseStrBody ('\\' :: 'f' :: (encStrBody s ++ '"' :: rest)) =
                    some (c :: s, rest)
                  conv_lhs => rw [parseStrBody.eq_def]
                  simp [escMap, ih rest, hc12]
                  exact hc12
                · by_cases h8 : c.toNat < 32
                  · rw [escChar, if_neg h1, if_neg h2, if_neg h3, if_neg h4, if_neg h5,
                      if_neg h6, if_neg h7, if_pos h8]
                    have hx3 := hexDigit_lt_sixteen (c.toNat / 16) (by omega)
                    have hx4 := hexDigit_lt_sixteen (c.toNat % 16) (by omega)
                    have h0x : isHexCh '0' = true := by decide
                    have h0v : hexVal '0' = 0 := by decide
                    have hnv : hexVal '0' * 4096 + hexVal '0' * 256 +
                        hexVal (hexDigit (c.toNat / 16)) * 16 +
                        hexVal (hexDigit (c.toNat % 16)) = c.toNat := by
                      rw [hx3.2, hx4.2, h0v]
                      have := Nat.div_add_mod c.toNat 16
                      omega
                    have hlt : c.toNat < 55296 := by omega
                    show parseStrBody ('\\' :: 'u' :: '0' :: '0' :: hexDigit (c.toNat / 16) ::
                      hexDigit (c.toNat % 16) :: (encStrBody s ++ '"' :: rest)) =
                        some (c :: s, rest)
                    conv_lhs => rw [parseStrBody.eq_def]
                    simp only [h0x, hx3.1, hx4.1, Bool.and_self, Bool.true_and, Bool.and_true,
                      hnv]
                    simp [hlt, ih rest, Char.ofNat_toNat]
                  · rw [escChar, if_neg h1, if_neg h2, if_neg h3, if_neg h4, if_neg h5,
                      if_neg h6, if_neg h7, if_neg h8]
                    show parseStrBody (c :: (encStrBody s ++ '"' :: rest)) = some (c :: s, rest)
                    conv_lhs => rw [parseStrBody.eq_def]
                    simp [h1, h2, h8, ih rest]

theorem parseStrBody_len : ∀ l t r : List Char,
    parseStrBody l = some (t, r) → t.length + 1 ≤ l.length := by
  intro l
  induction l using parseStrBody.induct with
  | case1 =>
    intro t r h
    rw [parseStrBody.eq_def] at h
    simp at h
  | case2 l =>
    intro t r h
    rw [parseStrBody.eq_def] at h
    simp at h
    obtain ⟨h1, h2⟩ := h
    subst h1
    simp
  | case3 hne =>
    intro t r h
    rw [parseStrBody.eq_def] at h
    simp at h
  | case4 h1 h2 h3 h4 r2 hhex nv hlt hne ih =>
    intro t r h
    rw [parseStrBody.eq_def] at h
    simp only [hhex] at h
    simp at h
    obtain ⟨hsm, a, hpa, hta⟩ := h
    have hlen := ih a r hpa
    rw [← hta]
    simp
    omega
  | case5 h1 h2 h3 h4 r2 hhex nv hlt hne =>
    intro t r h
    rw [parseStrBody.eq_def] at h
    simp only [hhex] at h
    simp at h
    exact absurd h.1 (by simpa using hlt)
  | case6 h1 h2 h3 h4 r2 hhex hne =>
    intro t r h
    rw [parseStrBody.eq_def] at h
    simp only [Bool.not_eq_true] at hhex
    simp [hhex] at h
  | case7 l hshape hne =>
    intro t r h
    rw [parseStrBody.eq_def] at h
    rcases l with - | ⟨a, - | ⟨b, - | ⟨c2, - | ⟨d, l4⟩⟩⟩⟩
    · simp at h
    · simp at h
    · simp at h
    · simp at h
    · exact (hshape a b c2 d l4 rfl).elim
  | case8 c l hcu ec hesc hne ih =>
    intro t r h
    rw [parseStrBody.eq_def] at h
    simp [hcu, hesc] at h
    obtain ⟨a, hpa, hta⟩ := h
    have hlen := ih a r hpa
    rw [← hta]
    simp
    omega
  | case9 c l hcu hesc hne =>
    intro t r h
    rw [parseStrBody.eq_def] at h
    simp [hcu, hesc] at h
  | case10 c l hq hb hctl =>
    intro t r h
    rw [parseStrBody.eq_def] at h
    simp [hq, hb, hctl] at h
  | case11 c l hq hb hctl ih =>
    intro t r h
    rw [parseStrBody.eq_def] at h
    simp [hq, hb, hctl] at h
    obtain ⟨a, hpa, hta⟩ := h
    have hlen := ih a r hpa
    rw [← hta]
    simp
    omega

/-! Shape facts about encodings, used to drive the parser through them. -/

theorem digit_head_facts {c : Char} (h : isDigitCh c = true) :
    isWs c = false ∧ c ≠ ']' ∧ c ≠ '-' ∧ c ≠ 'n' ∧ c ≠ 't' ∧ c ≠ 'f' ∧
      c ≠ '"' ∧ c ≠ '[' ∧ c ≠ '{' :=
  ⟨isWs_eq_false_of_digit h, digit_ne_of h (by decide), digit_ne_of h (by decide),
    digit_ne_of h (by decide), digit_ne_of h (by decide), digit_ne_of h (by decide),
    digit_ne_of h (by decide), digit_ne_of h (by decide), digit_ne_of h (by decide)⟩

theorem encInt_head (i : Int) : ∃ c cs, encInt i = c :: cs ∧ (c = '-' ∨ isDigitCh c = true) := by
  by_cases hneg : i < 0
  · exact ⟨'-', encNat i.natAbs, by rw [encInt, if_pos hneg], Or.inl rfl⟩
  · obtain ⟨c, cs, hc, hdig, -⟩ := encNat_shape i.natAbs
    exact ⟨c, cs, by rw [encInt, if_neg hneg, hc], Or.inr hdig⟩

theorem dumps_head : ∀ v : JVal, ∃ c cs, dumps v = c :: cs ∧ isWs c = false ∧ c ≠ ']' := by
  intro v
  cases v with
  | null => exact ⟨'n', ['u', 'l', 'l'], by simp [dumps], by decide, by decide⟩
  | bool b =>
    cases b with
    | true => exact ⟨'t', ['r', 'u', 'e'], by simp [dumps], by decide, by decide⟩
    | false => exact ⟨'f', ['a', 'l', 's', 'e'], by simp [dumps], by decide, by decide⟩
  | num i =>
    obtain ⟨c, cs, hc, hd⟩ := encInt_head i
    refine ⟨c, cs, by simp [dumps, hc], ?_, ?_⟩
    · rcases hd with hd | hd
      · subst hd; decide
      · exact (digit_head_facts hd).1
    · rcases hd with hd | hd
      · subst hd; decide
      · exact (digit_head_facts hd).2.1
  | str s => exact ⟨'"', encStrBody s ++ ['"'], by simp [dumps, encStr], by decide, by decide⟩
  | arr l =>
    cases l with
    | nil => exact ⟨'[', [']'], by simp [dumps], by decide, by decide⟩
    | cons v vs => exact ⟨'[', dumpsElems v vs ++ [']'], by simp [dumps], by decide, by decide⟩
  | obj l =>
    cases l with
    | nil => exact ⟨'{', ['}'], by simp [dumps], by decide, by decide⟩
    | cons m ms => exact ⟨'{', dumpsMembs m ms ++ ['}'], by simp [dumps], by decide, by decide⟩

theorem dumpsElems_decomp (v : JVal) (vs : List JVal) :
    ∃ c cs, dumpsElems v vs = c :: cs ∧ isWs c = false ∧ c ≠ ']' := by
  obtain ⟨c, cs, hc, hws, hne⟩ := dumps_head v
  cases vs with
  | nil => exact ⟨c, cs, by simp [dumpsElems, hc], hws, hne⟩
  | cons w ws =>
    exact ⟨c, cs ++ ',' :: ' ' :: dumpsElems w ws, by simp [dumpsElems, hc], hws, hne⟩

theorem dumpsMembs_decomp (m : List Char × JVal) (ms : List (List Char × JVal)) :
    ∃ z, dumpsMembs m ms = '"' :: z := by
  obtain ⟨k, v⟩ := m
  cases ms with
  | nil => exact ⟨encStrBody k ++ ['"'] ++ ':' :: ' ' :: dumps v, by simp [dumpsMembs, encStr]⟩
  | cons m2 ms2 =>
    exact ⟨encStrBody k ++ ['"'] ++ ':' :: ' ' :: dumps v ++ ',' :: ' ' :: dumpsMembs m2 ms2,
      by simp [dumpsMembs, encStr]⟩

theorem dumps_len_pos (v : JVal) : 1 ≤ (dumps v).length := by
  obtain ⟨c, cs, hc, -⟩ := dumps_head v
  simp [hc]

theorem skipWs_dumps_append (v : JVal) (x : List Char) :
    skipWs (dumps v ++ x) = dumps v ++ x := by
  obtain ⟨c, cs, hc, hws, -⟩ := dumps_head v
  rw [hc, List.cons_append]
  exact skipWs_cons_false hws

theorem skipWs_dumpsElems_append (v : JVal) (vs : List JVal) (x : List Char) :
    skipWs (dumpsElems v vs ++ x) = dumpsElems v vs ++ x := by
  obtain ⟨c, cs, hc, hws, -⟩ := dumpsElems_decomp v vs
  rw [hc, List.cons_append]
  exact skipWs_cons_false hws

/-- The characters that may legitimately follow a complete JSON value
inside a document: end of input, a separator comma, or a closing bracket
or brace. -/
def sepHead : List Char → Bool
  | [] => true
  | c :: _ => c = ',' || c = ']' || c = '}'

theorem sepHead_facts {rest : List Char} (h : sepHead rest = true) :
    digitHead rest = false ∧ floatFollows rest = false := by
  cases rest with
  | nil => exact ⟨rfl, rfl⟩
  | cons c l =>
    simp [sepHead] at h
    rcases h with (h | h) | h <;> subst h <;>
      exact ⟨by simp [digitHead, isDigitCh], by simp [floatFollows]⟩

/-! One-step unfolding lemmas for the fuel-indexed parser. -/

theorem parseVal_nullLit (n : Nat) (rest : List Char) :
    parseVal (n + 1) ('n' :: 'u' :: 'l' :: 'l' :: rest) = some (JVal.null, rest) := rfl

theorem parseVal_trueLit (n : Nat) (rest : List Char) :
    parseVal (n + 1) ('t' :: 'r' :: 'u' :: 'e' :: rest) = some (JVal.bool true, rest) := rfl

theorem parseVal_falseLit (n : Nat) (rest : List Char) :
    parseVal (n + 1) ('f' :: 'a' :: 'l' :: 's' :: 'e' :: rest) =
      some (JVal.bool false, rest) := rfl

theorem parseVal_quote (n : Nat) (x : List Char) :
    parseVal (n + 1) ('"' :: x) =
      (parseStrBody x).map (fun p => (JVal.str p.1, p.2)) := rfl

theorem parseVal_lbrack (n : Nat) (x : List Char) :
    parseVal (n + 1) ('[' :: x) =
      (match skipWs x with
        | ']' :: r2 => some (JVal.arr [], r2)
        | r1 => (parseElems n r1).map (fun p => (JVal.arr p.1, p.2))) := rfl

theorem parseVal_lbrace (n : Nat) (x : List Char) :
    parseVal (n + 1) ('{' :: x) =
      (match skipWs x with
        | '}' :: r2 => some (JVal.obj [], r2)
        | r1 => (parseMembs n r1).map (fun p => (JVal.obj p.1, p.2))) := rfl

theorem parseVal_other (n : Nat) (c : Char) (r : List Char) (h1 : c ≠ 'n') (h2 : c ≠ 't')
    (h3 : c ≠ 'f') (h4 : c ≠ '"') (h5 : c ≠ '[') (h6 : c ≠ '{') :
    parseVal (n + 1) (c :: r) =
      (parseNumber (c :: r)).map (fun p => (JVal.num p.1, p.2)) := by
  rw [parseVal.eq_def]
  simp [h1, h2, h3, h4, h5, h6]

theorem parseElems_succ (n : Nat) (l : List Char) :
    parseElems (n + 1) l =
      (match parseVal n l with
        | none => none
        | some (v, r) =>
          match skipWs r with
          | ',' :: r2 => (parseElems n (skipWs r2)).map (fun p => (v :: p.1, p.2))
          | ']' :: r2 => some ([v], r2)
          | _ => none) := rfl

theorem parseMembs_succ (n : Nat) (l : List Char) :
    parseMembs (n + 1) l =
      (match l with
        | '"' :: r =>
          match parseStrBody r with
          | none => none
          | some (k, r1) =>
            match skipWs r1 with
            | ':' :: r2 =>
              match parseVal n (skipWs r2) with
              | none => none
              | some (v, r3) =>
                match skipWs r3 with
                | ',' :: r4 => (parseMembs n (skipWs r4)).map (fun p => ((k, v) :: p.1, p.2))
                | '}' :: r4 => some ([(k, v)], r4)
                | _ => none
            | _ => none
        | _ => none) := rfl

theorem skipWs_dumpsMembs_append (m : List Char × JVal) (ms : List (List Char × JVal))
    (x : List Char) : skipWs (dumpsMembs m ms ++ x) = dumpsMembs m ms ++ x := by
  obtain ⟨z, hz⟩ := dumpsMembs_decomp m ms
  rw [hz, List.cons_append]
  exact skipWs_cons_false (by decide)

/-- Parsing inverts printing: the heart of the `json.loads` / `json.dumps`
round-trip, proved by induction on the parser fuel. -/
theorem parse_rt : ∀ n : Nat,
    (∀ v rest, (dumps v).length ≤ n → sepHead rest = true →
      parseVal n (dumps v ++ rest) = some (v, rest)) ∧
    (∀ v vs rest, (dumpsElems v vs).length + 1 ≤ n →
      parseElems n (dumpsElems v vs ++ ']' :: rest) = some (v :: vs, rest)) ∧
    (∀ k jv ms rest, (dumpsMembs (k, jv) ms).length + 1 ≤ n →
      parseMembs n (dumpsMembs (k, jv) ms ++ '}' :: rest) = some ((k, jv) :: ms, rest)) := by
  intro n
  induction n with
  | zero =>
    refine ⟨?_, ?_, ?_⟩
    · intro v rest hlen hsep
      exact absurd hlen (by have := dumps_len_pos v; omega)
    · intro v vs rest hlen
      exact absurd hlen (by omega)
    · intro k jv ms rest hlen
      exact absurd hlen (by omega)
  | succ n ih =>
    obtain ⟨ihV, ihE, ihM⟩ := ih
    have hV : ∀ v rest, (dumps v).length ≤ n + 1 → sepHead rest = true →
        parseVal (n + 1) (dumps v ++ rest) = some (v, rest) := by
      intro v rest hlen hsep
      cases v with
      | null =>
        rw [show dumps JVal.null = ['n', 'u', 'l', 'l'] by simp [dumps]]
        exact parseVal_nullLit n rest
      | bool b =>
        cases b with
        | true =>
          rw [show dumps (JVal.bool true) = ['t', 'r', 'u', 'e'] by simp [dumps]]
          exact parseVal_trueLit n rest
        | false =>
          rw [show dumps (JVal.bool false) = ['f', 'a', 'l', 's', 'e'] by simp [dumps]]
          exact parseVal_falseLit n rest
      | str s =>
        rw [show dumps (JVal.str s) ++ rest =
          '"' :: (encStrBody s ++ '"' :: rest) by simp [dumps, encStr]]
        rw [parseVal_quote, parseStrBody_enc s rest]
        rfl
      | num i =>
        obtain ⟨c, cs, hc, hd⟩ := encInt_head i
        have hnes : c ≠ 'n' ∧ c ≠ 't' ∧ c ≠ 'f' ∧ c ≠ '"' ∧ c ≠ '[' ∧ c ≠ '{' := by
          rcases hd with hd | hd
          · subst hd
            exact ⟨by decide, by decide, by decide, by decide, by decide, by decide⟩
          · have hf := digit_head_facts hd
            exact ⟨hf.2.2.2.1, hf.2.2.2.2.1, hf.2.2.2.2.2.1, hf.2.2.2.2.2.2.1,
              hf.2.2.2.2.2.2.2.1, hf.2.2.2.2.2.2.2.2⟩
        rw [show dumps (JVal.num i) = encInt i by simp [dumps], hc, List.cons_append,
          parseVal_other n c (cs ++ rest) hnes.1 hnes.2.1 hnes.2.2.1 hnes.2.2.2.1
            hnes.2.2.2.2.1 hnes.2.2.2.2.2, ← List.cons_append, ← hc]
        obtain ⟨hdh, hff⟩ := sepHead_facts hsep
        rw [parseNumber_encInt i rest hdh hff]
        rfl
      | arr l =>
        cases l with
        | nil =>
          rw [show dumps (JVal.arr []) ++ rest = '[' :: ']' :: rest by simp [dumps]]
          rw [parseVal_lbrack]
          rfl
        | cons v vs =>
          rw [show dumps (JVal.arr (v :: vs)) ++ rest =
            '[' :: (dumpsElems v vs ++ ']' :: rest) by simp [dumps]]
          rw [parseVal_lbrack, skipWs_dumpsElems_append]
          obtain ⟨c, cs, hc, hws, hne⟩ := dumpsElems_decomp v vs
          have hb : (dumpsElems v vs).length + 1 ≤ n := by
            have h2 : (dumps (JVal.arr (v :: vs))).length = (dumpsElems v vs).length + 2 := by
              simp [dumps]
            omega
          rw [hc, List.cons_append]
          split
          · next r2 heq =>
            injection heq with he1 he2
            exact absurd he1 hne
          · next hno =>
            rw [← List.cons_append, ← hc, ihE v vs rest hb]
            rfl
      | obj l =>
        cases l with
        | nil =>
          rw [show dumps (JVal.obj []) ++ rest = '{' :: '}' :: rest by simp [dumps]]
          rw [parseVal_lbrace]
          rfl
        | cons m ms =>
          rw [show dumps (JVal.obj (m :: ms)) ++ rest =
            '{' :: (dumpsMembs m ms ++ '}' :: rest) by simp [dumps]]
          rw [parseVal_lbrace, skipWs_dumpsMembs_append]
          obtain ⟨z, hz⟩ := dumpsMembs_decomp m ms
          have hb : (dumpsMembs m ms).length + 1 ≤ n := by
            have h2 : (dumps (JVal.obj (m :: ms))).length = (dumpsMembs m ms).length + 2 := by
              simp [dumps]
            omega
          rw [hz, List.cons_append]
          split
          · next r2 heq =>
            injection heq with he1 he2
            exact absurd he1 (by decide)
          · next hno =>
            obtain ⟨k, jv⟩ := m
            rw [← List.cons_append, ← hz, ihM k jv ms rest hb]
            rfl
    refine ⟨hV, ?_, ?_⟩
    · intro v vs rest hlen
      cases vs with
      | nil =>
        have hde : dumpsElems v [] = dumps v := by simp [dumpsElems]
        rw [hde] at hlen ⊢
        rw [parseElems_succ, ihV v (']' :: rest) (by omega) (by simp [sepHead])]
        rfl
      | cons w ws =>
        have hde : dumpsElems v (w :: ws) = dumps v ++ ',' :: ' ' :: dumpsElems w ws := by
          simp [dumpsElems]
        rw [hde] at hlen ⊢
        have hlens : (dumps v).length + 2 + (dumpsElems w ws).length + 1 ≤ n + 1 := by
          simp [List.length_append] at hlen
          omega
        simp only [List.append_assoc, List.cons_append]
        rw [parseElems_succ, ihV v (',' :: ' ' :: (dumpsElems w ws ++ ']' :: rest))
          (by have := dumps_len_pos v; omega) (by simp [sepHead])]
        show (parseElems n (skipWs (' ' :: (dumpsElems w ws ++ ']' :: rest)))).map
          (fun p => (v :: p.1, p.2)) = some (v :: w :: ws, rest)
        rw [show skipWs (' ' :: (dumpsElems w ws ++ ']' :: rest)) =
            dumpsElems w ws ++ ']' :: rest by
          rw [skipWs_cons_true (by decide)]
          exact skipWs_dumpsElems_append w ws _]
        rw [ihE w ws rest (by have := dumps_len_pos v; omega)]
        rfl
    · intro k jv ms rest hlen
      cases ms with
      | nil =>
        have hdm : dumpsMembs (k, jv) [] ++ '}' :: rest =
            '"' :: (encStrBody k ++ '"' :: ':' :: ' ' :: (dumps jv ++ '}' :: rest)) := by
          simp [dumpsMembs, encStr]
        have hlens : (encStrBody k).length + 4 + (dumps jv).length + 1 ≤ n + 1 := by
          simp [dumpsMembs, encStr, List.length_append] at hlen
          omega
        rw [hdm, parseMembs_succ]
        show (match parseStrBody (encStrBody k ++ '"' :: ':' :: ' ' ::
            (dumps jv ++ '}' :: rest)) with
          | none => none
          | some (k2, r1) =>
            match skipWs r1 with
            | ':' :: r2 =>
              match parseVal n (skipWs r2) with
              | none => none
              | some (v, r3) =>
                match skipWs r3 with
                | ',' :: r4 =>
                  (parseMembs n (skipWs r4)).map (fun p => ((k2, v) :: p.1, p.2))
                | '}' :: r4 => some ([(k2, v)], r4)
                | _ => none
            | _ => none) = some ([(k, jv)], rest)
        rw [parseStrBody_enc k (':' :: ' ' :: (dumps jv ++ '}' :: rest))]
        show (match parseVal n (skipWs (' ' :: (dumps jv ++ '}' :: rest))) with
          | none => none
          | some (v, r3) =>
            match skipWs r3 with
            | ',' :: r4 => (parseMembs n (skipWs r4)).map (fun p => ((k, v) :: p.1, p.2))
            | '}' :: r4 => some ([(k, v)], r4)
            | _ => none) = some ([(k, jv)], rest)
        rw [show skipWs (' ' :: (dumps jv ++ '}' :: rest)) = dumps jv ++ '}' :: rest by
          rw [skipWs_cons_true (by decide)]
          exact skipWs_dumps_append jv _]
        rw [ihV jv ('}' :: rest) (by omega) (by simp [sepHead])]
        rfl
      | cons m2 ms2 =>
        obtain ⟨k2, v2⟩ := m2
        have hdm : dumpsMembs (k, jv) ((k2, v2) :: ms2) ++ '}' :: rest =
            '"' :: (encStrBody k ++ '"' :: ':' :: ' ' :: (dumps jv ++ ',' :: ' ' ::
              (dumpsMembs (k2, v2) ms2 ++ '}' :: rest))) := by
          simp [dumpsMembs, encStr]
        have hlens : (encStrBody k).length + 4 + (dumps jv).length + 2 +
            (dumpsMembs (k2, v2) ms2).length + 1 ≤ n + 1 := by
          simp [dumpsMembs, encStr, List.length_append] at hlen
          omega
        rw [hdm, parseMembs_succ]
        show (match parseStrBody (encStrBody k ++ '"' :: ':' :: ' ' :: (dumps jv ++ ',' :: ' ' ::
            (dumpsMembs (k2, v2) ms2 ++ '}' :: rest))) with
          | none => none
          | some (k3, r1) =>
            match skipWs r1 with
            | ':' :: r2 =>
              match parseVal n (skipWs r2) with
              | none => none
              | some (v, r3) =>
                match skipWs r3 with
                | ',' :: r4 =>
                  (parseMembs n (skipWs r4)).map (fun p => ((k3, v) :: p.1, p.2))
                | '}' :: r4 => some ([(k3, v)], r4)
                | _ => none
            | _ => none) = some ((k, jv) :: (k2, v2) :: ms2, rest)
        rw [parseStrBody_enc k (':' :: ' ' :: (dumps jv ++ ',' :: ' ' ::
          (dumpsMembs (k2, v2) ms2 ++ '}' :: rest)))]
        show (match parseVal n (skipWs (' ' :: (dumps jv ++ ',' :: ' ' ::
            (dumpsMembs (k2, v2) ms2 ++ '}' :: rest)))) with
          | none => none
          | some (v, r3) =>
            match skipWs r3 with
            | ',' :: r4 => (parseMembs n (skipWs r4)).map (fun p => ((k, v) :: p.1, p.2))
            | '}' :: r4 => some ([(k, v)], r4)
            | _ => none) = some ((k, jv) :: (k2, v2) :: ms2, rest)
        rw [show skipWs (' ' :: (dumps jv ++ ',' :: ' ' ::
            (dumpsMembs (k2, v2) ms2 ++ '}' :: rest))) =
            dumps jv ++ ',' :: ' ' :: (dumpsMembs (k2, v2) ms2 ++ '}' :: rest) by
          rw [skipWs_cons_true (by decide)]
          exact skipWs_dumps_append jv _]
        rw [ihV jv (',' :: ' ' :: (dumpsMembs (k2, v2) ms2 ++ '}' :: rest))
          (by omega) (by simp [sepHead])]
        show (parseMembs n (skipWs (' ' :: (dumpsMembs (k2, v2) ms2 ++ '}' :: rest)))).map
          (fun p => ((k, jv) :: p.1, p.2)) = some ((k, jv) :: (k2, v2) :: ms2, rest)
        rw [show skipWs (' ' :: (dumpsMembs (k2, v2) ms2 ++ '}' :: rest)) =
            dumpsMembs (k2, v2) ms2 ++ '}' :: rest by
          rw [skipWs_cons_true (by decide)]
          exact skipWs_dumpsMembs_append (k2, v2) ms2 _]
        rw [ihM k2 v2 ms2 rest (by omega)]
        rfl

/-- Round trip at the document level: decoding an encoded value recovers it. -/
theorem loads_dumps (v : JVal) : loads (dumps v) = some v := by
  have h1 : skipWs (dumps v) = dumps v := by simpa using skipWs_dumps_append v []
  have hparse : parseVal ((dumps v).length + 1) (dumps v) = some (v, []) := by
    have := (parse_rt ((dumps v).length + 1)).1 v [] (by omega) rfl
    simpa using this
  show (match parseVal ((dumps v).length + 1) (skipWs (dumps v)) with
    | some (w, r) => if skipWs r = [] then some w else none
    | none => none) = some v
  rw [h1, hparse]
  rfl

/-- A successful parse of a string literal consumes at least two more
characters than the decoded content (the surrounding quotes). -/
theorem parseVal_str_len : ∀ (n : Nat) (l t r : List Char),
    parseVal n l = some (JVal.str t, r) → t.length + 2 ≤ l.length := by
  intro n l t r h
  cases n with
  | zero =>
    rw [parseVal.eq_def] at h
    simp at h
  | succ n =>
    cases l with
    | nil =>
      rw [parseVal.eq_def] at h
      simp at h
    | cons c r0 =>
      by_cases h1 : c = 'n'
      · subst h1
        rw [parseVal.eq_def] at h
        simp only [if_pos, expectLit] at h
        cases hlp : litPref ['u', 'l', 'l'] r0 <;> rw [hlp] at h <;> simp at h
      · by_cases h2 : c = 't'
        · subst h2
          rw [parseVal.eq_def] at h
          simp only [h1, if_false, if_pos, expectLit] at h
          cases hlp : litPref ['r', 'u', 'e'] r0 <;> rw [hlp] at h <;> simp at h
        · by_cases h3 : c = 'f'
          · subst h3
            rw [parseVal.eq_def] at h
            simp only [h1, h2, if_false, if_pos, expectLit] at h
            cases hlp : litPref ['a', 'l', 's', 'e'] r0 <;> rw [hlp] at h <;> simp at h
          · by_cases h4 : c = '"'
            · subst h4
              rw [parseVal.eq_def] at h
              simp only [h1, h2, h3, if_false, if_pos] at h
              cases hp : parseStrBody r0 with
              | none => rw [hp] at h; simp at h
              | some p =>
                rw [hp] at h
                have hpair : (JVal.str p.1, p.2) = (JVal.str t, r) := by
                  have h2 : some (JVal.str p.1, p.2) = some (JVal.str t, r) := h
                  injection h2
                have hfst : JVal.str p.1 = JVal.str t := congrArg Prod.fst hpair
                injection hfst with he
                have hlen := parseStrBody_len r0 p.1 p.2 (by rw [hp])
                rw [he] at hlen
                simp
                omega
            · by_cases h5 : c = '['
              · subst h5
                rw [parseVal.eq_def] at h
                simp only [h1, h2, h3, h4, if_false, if_pos] at h
                split at h
                · simp at h
                · cases hp : parseElems n (skipWs r0) <;> rw [hp] at h <;> simp at h
              · by_cases h6 : c = '{'
                · subst h6
                  rw [parseVal.eq_def] at h
                  simp only [h1, h2, h3, h4, h5, if_false, if_pos] at h
                  split at h
                  · simp at h
                  · cases hp : parseMembs n (skipWs r0) <;> rw [hp] at h <;> simp at h
                · rw [parseVal_other n c r0 h1 h2 h3 h4 h5 h6] at h
                  cases hp : parseNumber (c :: r0) <;> rw [hp] at h <;> simp at h

/-- When `loads` yields a bare string, that string is strictly shorter than
the input: decoding removes at least the two quote characters.  This is the
measure that makes the unescape loop of `unescape_json_string` terminate. -/
theorem loads_str_len {s t : List Char} (h : loads s = some (JVal.str t)) :
    t.length + 2 ≤ s.length := by
  unfold loads at h
  cases hp : parseVal (s.length + 1) (skipWs s) with
  | none => rw [hp] at h; cases h
  | some p =>
    obtain ⟨pv, pr⟩ := p
    rw [hp] at h
    split at h
    · next v2 r2 heq =>
      injection heq with hpp
      injection hpp with hv hr
      split at h
      · injection h with h1
        have hpv : pv = JVal.str t := hv.trans h1
        rw [hpv] at hp
        have hlp := parseVal_str_len (s.length + 1) (skipWs s) t pr hp
        have := skipWs_length s
        omega
      · cases h
    · cases h

/-- The decode loop of `unescape_json_string` (main.py lines 11-25), with
the previous value threaded as in the Python code: stop when the loop
guard `prev != current` fails, when `json.loads` raises, or when the
decoded value is no longer a string; otherwise decode again.  Termination
is by `loads_str_len`. -/
def unescapeCore (prev : Option (List Char)) (s : List Char) : JVal :=
  if prev = some s then JVal.str s
  else
    match h : loads s with
    | some (JVal.str t) => unescapeCore (some s) t
    | some v => v
    | none => JVal.str s
  termination_by s.length
  decreasing_by
    have := loads_str_len h
    omega

/-- Model of `unescape_json_string` (main.py lines 11-25): the loop starts
with `prev = None` and `current = s`. -/
def unescape_json_string (s : List Char) : JVal :=
  unescapeCore none s

/-- Fuel-indexed variant of the decode loop: `none` means the fuel ran out
before the loop finished.  Used to state termination of the loop. -/
def unescapeFuel : Nat → Option (List Char) → List Char → Option JVal
  | 0, _, _ => none
  | n + 1, prev, s =>
    if prev = some s then some (JVal.str s)
    else
      match loads s with
      | some (JVal.str t) => unescapeFuel n (some s) t
      | some v => some v
      | none => some (JVal.str s)

theorem unescapeCore_guard {p : Option (List Char)} {s : List Char} (h : p = some s) :
    unescapeCore p s = JVal.str s := by
  rw [unescapeCore, if_pos h]

theorem unescapeCore_fail {p : Option (List Char)} {s : List Char} (hp : p ≠ some s)
    (h : loads s = none) : unescapeCore p s = JVal.str s := by
  rw [unescapeCore, if_neg hp]
  split
  · next t heq => rw [h] at heq; cases heq
  · next v hne heq => rw [h] at heq; cases heq
  · rfl

theorem unescapeCore_str {p : Option (List Char)} {s t : List Char} (hp : p ≠ some s)
    (h : loads s = some (JVal.str t)) : unescapeCore p s = unescapeCore (some s) t := by
  rw [unescapeCore, if_neg hp]
  split
  · next t2 heq =>
    rw [h] at heq
    injection heq with h2
    injection h2 with h3
    subst h3
    rfl
  · next v hne heq =>
    rw [h] at heq
    injection heq with h2
    exact (hne t h2.symm).elim
  · next heq => rw [h] at heq; cases heq

/-- String detector, mirroring Python `isinstance(x, str)`. -/
def isStr : JVal → Bool
  | JVal.str _ => true
  | _ => false

/-- Array detector, mirroring Python `isinstance(x, list)`. -/
def isArr : JVal → Bool
  | JVal.arr _ => true
  | _ => false

theorem unescapeCore_val {p : Option (List Char)} {s : List Char} {v : JVal}
    (hp : p ≠ some s) (h : loads s = some v) (hv : isStr v = false) :
    unescapeCore p s = v := by
  rw [unescapeCore, if_neg hp]
  split
  · next t2 heq =>
    rw [h] at heq
    injection heq with h2
    subst h2
    simp [isStr] at hv
  · next v2 hne heq =>
    rw [h] at heq
    injection heq with h2
    exact h2.symm
  · next heq => rw [h] at heq; cases heq

theorem unescapeCore_congr {p q : Option (List Char)} {s : List Char}
    (hp : p ≠ some s) (hq : q ≠ some s) : unescapeCore p s = unescapeCore q s := by
  cases hl : loads s with
  | none => rw [unescapeCore_fail hp hl, unescapeCore_fail hq hl]
  | some v =>
    cases v <;>
      first
        | rw [unescapeCore_str hp hl, unescapeCore_str hq hl]
        | rw [unescapeCore_val hp hl rfl, unescapeCore_val hq hl rfl]

/-- Fuel one beyond the input length always suffices for the decode loop:
the justification is `loads_str_len`, the strict decrease of the measure. -/
theorem unescapeFuel_spec : ∀ (n : Nat) (p : Option (List Char)) (s : List Char),
    s.length < n → unescapeFuel n p s = some (unescapeCore p s) := by
  intro n
  induction n with
  | zero => intro p s h; exact absurd h (by omega)
  | succ n ih =>
    intro p s hlen
    by_cases hps : p = some s
    · rw [unescapeCore_guard hps, unescapeFuel, if_pos hps]
    · cases hl : loads s with
      | none => rw [unescapeCore_fail hps hl, unescapeFuel, if_neg hps, hl]
      | some v =>
        cases v with
        | str t =>
          rw [unescapeCore_str hps hl, unescapeFuel, if_neg hps, hl]
          exact ih (some s) t (by have := loads_str_len hl; omega)
        | null => rw [unescapeCore_val hps hl rfl, unescapeFuel, if_neg hps, hl]
        | bool b => rw [unescapeCore_val hps hl rfl, unescapeFuel, if_neg hps, hl]
        | num i => rw [unescapeCore_val hps hl rfl, unescapeFuel, if_neg hps, hl]
        | arr l => rw [unescapeCore_val hps hl rfl, unescapeFuel, if_neg hps, hl]
        | obj l => rw [unescapeCore_val hps hl rfl, unescapeFuel, if_neg hps, hl]

/-!
Model of the rate-limited update executor `update_custom_field`
(main.py lines 47-90).

Each iteration of the `while True` loop performs one `requests.put`.  A
`Resp` is the observable part of one HTTP response: status code, the
parsed `x-ratelimit-remaining` header when present (absent parses as the
default 1000, line 56), and the body text.  An `Attempt` is the outcome of
one `requests.put` call: a response, or a raised transport error
(`requests.exceptions.RequestException`) with its message.

The executor is modelled as a function of the list of outcomes of the
successive put calls.  It returns the trace of performed effects (HTTP
attempts and sleeps, tagged by call site) together with the final result:
`none` when the supplied attempts were exhausted with the loop still
running, `some` of a returned dictionary or of an uncaught
`UnboundLocalError` crash.
-/

/-- One HTTP response as observed by the loop. -/
structure Resp where
  status : Nat
  remaining : Option Int
  body : List Char

/-- Outcome of one `requests.put` call. -/
inductive Attempt where
  | resp (r : Resp) : Attempt
  | err (msg : List Char) : Attempt

/-- Trace events: an HTTP attempt, the low-quota cool-down sleep
(line 61), and the rate-limit wait sleeps (lines 65 and 81). -/
inductive Ev where
  | put : Ev
  | cooldown (secs : Nat) : Ev
  | rlWait (secs : Nat) : Ev
deriving DecidableEq

/-- Error detail carried by a failure dictionary: `str(e)` of an
`HTTPError` raised by `raise_for_status` (determined by the status), or of
a transport error. -/
inductive ErrDetail where
  | httpError (status : Nat) : ErrDetail
  | transport (msg : List Char) : ErrDetail

/-- The dictionary returned by `update_custom_field` (lines 70-76 on
success, lines 83-90 on failure). -/
structure UpdResult where
  success : Bool
  statusCode : Option Nat
  responseBody : Option (List Char)
  error : Option ErrDetail

/-- Terminal behaviour of one invocation: a returned dictionary, or the
`UnboundLocalError` raised at line 80 when `response` is referenced before
assignment (transport error on the very first attempt). -/
inductive ExecOutcome where
  | done (r : UpdResult) : ExecOutcome
  | crash (msg : List Char) : ExecOutcome

/-- Trace and result of running the update loop against a list of attempt
outcomes. -/
structure RunOut where
  events : List Ev
  result : Option ExecOutcome

/-- Parsed value of the remaining-quota header, with the default 1000 used
when the header is absent (line 56). -/
def remainingOf (r : Resp) : Int :=
  r.remaining.getD 1000

/-- The pre-emptive cool-down of lines 59-61: a 10 second sleep exactly
when the remaining quota is 50 or less. -/
def cdEvents (r : Resp) : List Ev :=
  if remainingOf r ≤ 50 then [Ev.cooldown 10] else []

/-- Statuses on which `response.raise_for_status()` raises. -/
def isHttpErrStatus (s : Nat) : Bool :=
  decide (400 ≤ s) && decide (s < 600)

/-- The retry loop of `update_custom_field` (lines 47-90).  The first
argument is the response most recently bound to the `response` variable by
an earlier iteration, if any; the loop starts with `run none`. -/
def run : Option Resp → List Attempt → RunOut
  | _, [] => ⟨[], none⟩
  | _, Attempt.resp r :: rest =>
    if r.status = 429 then
      let tail := run (some r) rest
      ⟨Ev.put :: (cdEvents r ++ Ev.rlWait 10 :: tail.events), tail.result⟩
    else if isHttpErrStatus r.status then
      ⟨Ev.put :: cdEvents r,
        some (ExecOutcome.done
          ⟨false, some r.status, some r.body, some (ErrDetail.httpError r.status)⟩)⟩
    else
      ⟨Ev.put :: cdEvents r,
        some (ExecOutcome.done ⟨true, some r.status, some r.body, none⟩)⟩
  | prev, Attempt.err m :: rest =>
    match prev with
    | none => ⟨[Ev.put], some (ExecOutcome.crash m)⟩
    | some p =>
      if p.status = 429 then
        let tail := run prev rest
        ⟨Ev.put :: Ev.rlWait 10 :: tail.events, tail.result⟩
      else
        ⟨[Ev.put],
          some (ExecOutcome.done
            ⟨false, some p.status, some p.body, some (ErrDetail.transport m)⟩)⟩

/-- Number of HTTP attempts in a trace. -/
def countPut (l : List Ev) : Nat :=
  (l.filter (fun e => match e with | Ev.put => true | _ => false)).length

/-!
Model of the request handler `filter_custom_fields` (main.py lines
92-183).
-/

/-- One entry of the decoded snapshot's `fields` list as the handler reads
it (lines 141-143): `fieldId` and `fieldName` may be absent (`None`), and
a missing `options` key defaults to the empty list. -/
structure RField where
  fieldId : Option (List Char)
  fieldName : Option (List Char)
  options : List JVal

/-- One entry of `update_results` (lines 159-163). -/
structure FieldOutcome where
  fieldName : Option (List Char)
  fieldId : Option (List Char)
  result : UpdResult

/-- Result of the per-field loop: the collected results, the 400 response
produced when an exception escapes a field update (line 179), or the model
artifact of running out of supplied attempts. -/
inductive BatchResult where
  | ok (results : List FieldOutcome) : BatchResult
  | err400 : BatchResult
  | outOfAttempts : BatchResult

/-- The per-field loop of lines 139-163: every field in the list is
attempted via `update_custom_field` — there is no validation — and one
result dictionary is appended per field.  An exception escaping
`update_custom_field` (the crash case) aborts the loop and discards the
collected results: the handler returns a 400 (line 179). -/
def processFields : List RField → List (List Attempt) → List Ev × BatchResult
  | [], _ => ⟨[], BatchResult.ok []⟩
  | _ :: _, [] => ⟨[], BatchResult.outOfAttempts⟩
  | f :: fs, atts :: arest =>
    let ro := run none atts
    match ro.result with
    | some (ExecOutcome.done r) =>
      let tail := processFields fs arest
      ⟨ro.events ++ tail.1,
        match tail.2 with
        | BatchResult.ok rs => BatchResult.ok (⟨f.fieldName, f.fieldId, r⟩ :: rs)
        | other => other⟩
    | some (ExecOutcome.crash _) => ⟨ro.events, BatchResult.err400⟩
    | none => ⟨ro.events, BatchResult.outOfAttempts⟩

/-- The array unwrap of the request body (lines 103-106): a JSON array
body is replaced by its first element — `request_data[0]` — which raises
`IndexError` on an empty array (caught at line 110, yielding a 400,
modelled by `none`); any non-array body is used as is. -/
def requestObjectOf (v : JVal) : Option JVal :=
  match v with
  | JVal.arr xs => xs.head?
  | _ => some v

/-!
Claim theorems.
-/

/-- C1: the claim says 429-driven retries are capped (recommended: three
consecutive 429s, then `RemoteUnavailable`) so that every response
sequence — even one that is 429 forever — terminates within a bounded
number of attempts.  The code has no such cap: evaluating the loop on
seven consecutive 429 responses shows seven HTTP attempts already made and
the loop still running (no terminal outcome), exceeding any budget-plus-
three-429s bound and never surfacing an error. -/
theorem C1_rate_limit_loop_unbounded :
    (run none (List.replicate 7 (Attempt.resp ⟨429, none, []⟩))).result = none ∧
    countPut (run none (List.replicate 7 (Attempt.resp ⟨429, none, []⟩))).events = 7 :=
  ⟨rfl, rfl⟩

/-- C2 counterexample: the claim says the response sequence
`[500, 500, 500]` leads to exactly 3 HTTP attempts.  Evaluating the loop
on three 500 responses shows exactly one attempt: the first 500 is
terminal. -/
theorem C2_counterexample :
    run none [Attempt.resp ⟨500, none, ['e']⟩, Attempt.resp ⟨500, none, ['e']⟩,
        Attempt.resp ⟨500, none, ['e']⟩] =
      ⟨[Ev.put], some (ExecOutcome.done
        ⟨false, some 500, some ['e'], some (ErrDetail.httpError 500)⟩)⟩ ∧
    countPut [Ev.put] = 1 :=
  ⟨rfl, rfl⟩

/-- C2 amended: a non-429 error response is not retried at all — there is
no retry budget and no pause between attempts.  The first response with an
error status (400-599, not 429) immediately yields the terminal failure
outcome carrying that response's status and body; exactly one HTTP attempt
is made, and the remaining responses are never requested. -/
theorem C2_no_retry_budget (prev : Option Resp) (r : Resp) (rest : List Attempt)
    (herr : isHttpErrStatus r.status = true) (h429 : r.status ≠ 429) :
    run prev (Attempt.resp r :: rest) =
      ⟨Ev.put :: cdEvents r,
        some (ExecOutcome.done
          ⟨false, some r.status, some r.body, some (ErrDetail.httpError r.status)⟩)⟩ ∧
    countPut (Ev.put :: cdEvents r) = 1 := by
  constructor
  · rw [run, if_neg h429, if_pos herr]
  · unfold countPut cdEvents
    split <;> rfl

/-- C2 amended, witness at the response sequence `[500, 500, 500]`. -/
theorem C2_no_retry_budget_witness :
    isHttpErrStatus (500 : Nat) = true ∧ (500 : Nat) ≠ 429 ∧
    run none [Attempt.resp ⟨500, none, ['e']⟩, Attempt.resp ⟨500, none, ['e']⟩,
        Attempt.resp ⟨500, none, ['e']⟩] =
      ⟨Ev.put :: cdEvents ⟨500, none, ['e']⟩,
        some (ExecOutcome.done
          ⟨false, some 500, some ['e'], some (ErrDetail.httpError 500)⟩)⟩ :=
  ⟨rfl, by decide,
    (C2_no_retry_budget none ⟨500, none, ['e']⟩
      [Attempt.resp ⟨500, none, ['e']⟩, Attempt.resp ⟨500, none, ['e']⟩] rfl (by decide)).1⟩

/-- C3 counterexample: the claim says a field missing `id`, `name`, and a
non-empty `options` sequence is recorded as a synthetic failure with no
remote call.  Evaluating the handler loop on exactly such a field shows
one HTTP attempt performed and the remote outcome (a 200 success, not a
synthetic failure) recorded. -/
theorem C3_counterexample :
    processFields [⟨none, none, []⟩] [[Attempt.resp ⟨200, none, ['k']⟩]] =
      ⟨[Ev.put], BatchResult.ok [⟨none, none, ⟨true, some 200, some ['k'], none⟩⟩]⟩ ∧
    countPut [Ev.put] = 1 :=
  ⟨rfl, rfl⟩

/-- C3 amended: the handler performs no validation.  Every field of the
decoded snapshot is attempted via a remote update call — even a field
missing `fieldId`, missing `fieldName`, and missing `options` (which
defaults to the empty list) — and the recorded outcome is whatever the
remote call returns; no synthetic failed outcome exists.  Shown here for a
fully invalid field whose update receives a 200 response: one HTTP attempt
is made and a success outcome is recorded for the field. -/
theorem C3_no_validation (f : RField) (r : Resp) (rest : List Attempt)
    (hid : f.fieldId = none) (hnm : f.fieldName = none) (hop : f.options = [])
    (hst : r.status = 200) :
    processFields [f] [Attempt.resp r :: rest] =
      ⟨Ev.put :: cdEvents r,
        BatchResult.ok [⟨none, none, ⟨true, some 200, some r.body, none⟩⟩]⟩ ∧
    countPut (Ev.put :: cdEvents r) = 1 := by
  have hrun : run none (Attempt.resp r :: rest) =
      ⟨Ev.put :: cdEvents r,
        some (ExecOutcome.done ⟨true, some r.status, some r.body, none⟩)⟩ := by
    rw [run, if_neg (by rw [hst]; decide), if_neg (by rw [hst]; decide)]
  constructor
  · rw [processFields, hrun, hid, hnm, hst]
    simp [processFields]
  · unfold countPut cdEvents
    split <;> rfl

/-- C3 amended, witness: a field with no id, no name and no options, whose
update call receives a 200 response. -/
theorem C3_no_validation_witness :
    (⟨none, none, []⟩ : RField).fieldId = none ∧
    (⟨none, none, []⟩ : RField).fieldName = none ∧
    (⟨none, none, []⟩ : RField).options = [] ∧
    (⟨200, none, ['k']⟩ : Resp).status = 200 ∧
    processFields [⟨none, none, []⟩] [[Attempt.resp ⟨200, none, ['k']⟩]] =
      ⟨Ev.put :: cdEvents ⟨200, none, ['k']⟩,
        BatchResult.ok [⟨none, none, ⟨true, some 200, some ['k'], none⟩⟩]⟩ :=
  ⟨rfl, rfl, rfl, rfl,
    (C3_no_validation ⟨none, none, []⟩ ⟨200, none, ['k']⟩ [] rfl rfl rfl rfl).1⟩

/-- C4 counterexample: the claim says the cool-down fires exactly when the
remaining-quota header is strictly below 50.  A response with the header
equal to 50 — not strictly below — still triggers the cool-down sleep. -/
theorem C4_counterexample :
    run none [Attempt.resp ⟨200, some 50, []⟩] =
      ⟨[Ev.put, Ev.cooldown 10],
        some (ExecOutcome.done ⟨true, some 200, some [], none⟩)⟩ ∧
    ¬((50 : Int) < 50) :=
  ⟨rfl, by decide⟩

/-- C4 amended: on every response — regardless of its status, before any
success or rate-limit evaluation — the executor pauses for the fixed
10-unit cool-down exactly when the parsed remaining-quota value is less
than or equal to 50 (an absent header parses as the default 1000 and never
triggers it).  The trace of any response-headed run starts with the HTTP
attempt followed immediately by the cool-down sleep precisely under that
condition. -/
theorem C4_cooldown_iff (prev : Option Resp) (r : Resp) (rest : List Attempt) :
    (run prev (Attempt.resp r :: rest)).events.take 2 = [Ev.put, Ev.cooldown 10] ↔
      remainingOf r ≤ 50 := by
  rw [run]
  by_cases h429 : r.status = 429
  · rw [if_pos h429]
    by_cases hcd : remainingOf r ≤ 50 <;> simp [cdEvents, hcd]
  · rw [if_neg h429]
    by_cases herr : isHttpErrStatus r.status = true
    · rw [if_pos herr]
      by_cases hcd : remainingOf r ≤ 50 <;> simp [cdEvents, hcd]
    · rw [if_neg herr]
      by_cases hcd : remainingOf r ≤ 50 <;> simp [cdEvents, hcd]

/-- C5: a 429 response makes the executor sleep the fixed 10-unit interval
and retry the same call, consuming the next response; on the response
sequence `[429, 429, 200]` exactly 3 HTTP calls are made and the final
outcome is a success. -/
theorem C5_rate_limit_retry :
    (∀ (prev : Option Resp) (r : Resp) (rest : List Attempt), r.status = 429 →
      run prev (Attempt.resp r :: rest) =
        ⟨Ev.put :: (cdEvents r ++ Ev.rlWait 10 :: (run (some r) rest).events),
          (run (some r) rest).result⟩) ∧
    run none [Attempt.resp ⟨429, none, []⟩, Attempt.resp ⟨429, none, []⟩,
        Attempt.resp ⟨200, none, ['o']⟩] =
      ⟨[Ev.put, Ev.rlWait 10, Ev.put, Ev.rlWait 10, Ev.put],
        some (ExecOutcome.done ⟨true, some 200, some ['o'], none⟩)⟩ ∧
    countPut [Ev.put, Ev.rlWait 10, Ev.put, Ev.rlWait 10, Ev.put] = 3 := by
  refine ⟨?_, rfl, rfl⟩
  intro prev r rest h429
  rw [run, if_pos h429]

/-- C5 witness: the general 429-retry step applied to a concrete 429
response. -/
theorem C5_rate_limit_retry_witness :
    (⟨429, none, []⟩ : Resp).status = 429 ∧
    run none [Attempt.resp ⟨429, none, []⟩] =
      ⟨Ev.put :: (cdEvents ⟨429, none, []⟩ ++
          Ev.rlWait 10 :: (run (some ⟨429, none, []⟩) []).events),
        (run (some ⟨429, none, []⟩) []).result⟩ :=
  ⟨rfl, C5_rate_limit_retry.1 none ⟨429, none, []⟩ [] rfl⟩

/-- C6: the claim says a failure on one field never aborts the others and
the returned result always covers every field.  In the code, a transport
error on a field's very first attempt makes the `except` block evaluate
`hasattr(response, ...)` with `response` unbound, raising
`UnboundLocalError`, which is not a `RequestException`: it escapes
`update_custom_field`, the handler answers 400, and no per-field results
are returned — even though the second field's update (a 200) would have
succeeded, as the second conjunct shows by running it alone. -/
theorem C6_first_attempt_transport_crash :
    processFields [⟨some ['a'], some ['a'], []⟩, ⟨some ['b'], some ['b'], []⟩]
        [[Attempt.err ['x']], [Attempt.resp ⟨200, none, []⟩]] =
      ⟨[Ev.put], BatchResult.err400⟩ ∧
    processFields [⟨some ['b'], some ['b'], []⟩] [[Attempt.resp ⟨200, none, []⟩]] =
      ⟨[Ev.put], BatchResult.ok [⟨some ['b'], some ['b'], ⟨true, some 200, some [], none⟩⟩]⟩ :=
  ⟨rfl, rfl⟩

/-- C7: `unescape_json_string` repeatedly JSON-decodes while the decoded
result is itself a string, returns the decoded value as soon as it is not
a string, and returns the current value when decoding fails; in
particular, when the very first decode fails the input comes back
unchanged (as the string value itself). -/
theorem C7_normalize_loop :
    (∀ s, loads s = none → unescape_json_string s = JVal.str s) ∧
    (∀ s v, loads s = some v → isStr v = false → unescape_json_string s = v) ∧
    (∀ s t, loads s = some (JVal.str t) →
      unescape_json_string s = unescape_json_string t) := by
  refine ⟨?_, ?_, ?_⟩
  · intro s h
    exact unescapeCore_fail (by simp) h
  · intro s v h hv
    exact unescapeCore_val (by simp) h hv
  · intro s t h
    rw [unescape_json_string, unescapeCore_str (by simp) h]
    have hne : s ≠ t := by
      intro heq
      have := loads_str_len h
      subst heq
      omega
    exact unescapeCore_congr (by simp [hne]) (by simp)

/-- C7 witness: a non-JSON string is returned unchanged; a decoded
non-string (the number 1) is returned as soon as it appears; a decoded
string steps the loop to the inner string. -/
theorem C7_normalize_loop_witness :
    loads ['h', 'i'] = none ∧
    unescape_json_string ['h', 'i'] = JVal.str ['h', 'i'] ∧
    loads ['1'] = some (JVal.num 1) ∧
    isStr (JVal.num 1) = false ∧
    unescape_json_string ['1'] = JVal.num 1 ∧
    loads ['"', 'a', '"'] = some (JVal.str ['a']) ∧
    unescape_json_string ['"', 'a', '"'] = unescape_json_string ['a'] :=
  ⟨rfl, C7_normalize_loop.1 ['h', 'i'] rfl, rfl, rfl,
    C7_normalize_loop.2.1 ['1'] (JVal.num 1) rfl rfl, rfl,
    C7_normalize_loop.2.2 ['"', 'a', '"'] ['a'] rfl⟩

/-- C8: for every structured (non-string) value, normalizing its JSON
encoding — applied once, twice, or three times — recovers the value, and a
plain string that is not valid JSON maps to itself. -/
theorem C8_normalize_roundtrip :
    (∀ x : JVal, isStr x = false →
      unescape_json_string (dumps x) = x ∧
      unescape_json_string (dumps (JVal.str (dumps x))) = x ∧
      unescape_json_string (dumps (JVal.str (dumps (JVal.str (dumps x))))) = x) ∧
    (∀ s, loads s = none → unescape_json_string s = JVal.str s) := by
  have key1 : ∀ x : JVal, isStr x = false → unescape_json_string (dumps x) = x := by
    intro x hx
    exact unescapeCore_val (by simp) (loads_dumps x) hx
  have keyStr : ∀ t, unescape_json_string (dumps (JVal.str t)) = unescape_json_string t := by
    intro t
    rw [unescape_json_string, unescapeCore_str (by simp) (loads_dumps (JVal.str t))]
    have hne : dumps (JVal.str t) ≠ t := by
      intro heq
      have hl := loads_str_len (loads_dumps (JVal.str t))
      rw [heq] at hl
      omega
    exact unescapeCore_congr (by simp [hne]) (by simp)
  refine ⟨?_, ?_⟩
  · intro x hx
    refine ⟨key1 x hx, ?_, ?_⟩
    · rw [keyStr (dumps x)]
      exact key1 x hx
    · rw [keyStr (dumps (JVal.str (dumps x))), keyStr (dumps x)]
      exact key1 x hx
  · intro s h
    exact unescapeCore_fail (by simp) h

/-- C8 witness: the structured value 7, and a plain non-JSON string. -/
theorem C8_normalize_roundtrip_witness :
    isStr (JVal.num 7) = false ∧
    unescape_json_string (dumps (JVal.num 7)) = JVal.num 7 ∧
    unescape_json_string (dumps (JVal.str (dumps (JVal.num 7)))) = JVal.num 7 ∧
    loads ['z', 'z'] = none ∧
    unescape_json_string ['z', 'z'] = JVal.str ['z', 'z'] :=
  ⟨rfl, (C8_normalize_roundtrip.1 (JVal.num 7) rfl).1,
    (C8_normalize_roundtrip.1 (JVal.num 7) rfl).2.1, rfl,
    C8_normalize_roundtrip.2 ['z', 'z'] rfl⟩

/-- C9: `unescape_json_string` terminates on every input although it has
no explicit iteration cap: whenever decoding a string yields another
string, the decoded string is shorter by at least the two surrounding
quote characters, so the loop measure strictly decreases — witnessed by
the fuel-indexed loop finishing within length-plus-one steps on every
input. -/
theorem C9_unescape_terminates :
    (∀ s t : List Char, loads s = some (JVal.str t) → t.length + 2 ≤ s.length) ∧
    (∀ s : List Char, unescapeFuel (s.length + 1) none s =
      some (unescape_json_string s)) := by
  refine ⟨?_, ?_⟩
  · intro s t h
    exact loads_str_len h
  · intro s
    exact unescapeFuel_spec (s.length + 1) none s (by omega)

/-- C9 witness: decoding the three-character document of a one-character
string shrinks it by exactly the two quotes. -/
theorem C9_unescape_terminates_witness :
    loads ['"', 'h', '"'] = some (JVal.str ['h']) ∧
    (['h'] : List Char).length + 2 ≤ (['"', 'h', '"'] : List Char).length :=
  ⟨rfl, C9_unescape_terminates.1 ['"', 'h', '"'] ['h'] rfl⟩

/-- C10 counterexample: the claim says every body that parses as a JSON
array has its first element taken as the request object.  The empty array
parses as a JSON array, yet `request_data[0]` raises `IndexError` and the
handler answers 400 instead of taking any element. -/
theorem C10_counterexample : requestObjectOf (JVal.arr []) = none := rfl

/-- C10 amended: a body parsing as a non-empty JSON array has its first
element silently taken as the request object, the remaining elements
ignored; a non-array body is used as is; an empty array body yields the
400 parse error. -/
theorem C10_array_first :
    (∀ (x : JVal) (xs : List JVal), requestObjectOf (JVal.arr (x :: xs)) = some x) ∧
    (∀ v : JVal, isArr v = false → requestObjectOf v = some v) ∧
    requestObjectOf (JVal.arr []) = none := by
  refine ⟨fun x xs => rfl, ?_, rfl⟩
  intro v hv
  cases v <;> simp [requestObjectOf] <;> simp [isArr] at hv

/-- C10 amended, witness: a non-array body (the number 3) is used as is. -/
theorem C10_array_first_witness :
    isArr (JVal.num 3) = false ∧ requestObjectOf (JVal.num 3) = some (JVal.num 3) :=
  ⟨rfl, C10_array_first.2.1 (JVal.num 3) rfl⟩
